import Mathlib

/-!
Formal model of the teamsync real-time call subsystem.

The definitions below are a shallow embedding of the Go backend
(backend/api/calls.go, backend/api/call_config.go, the sqlc query file for
calls, the rtc TURN server) and of the TypeScript call-session state machine
(the CallProvider / connectWebSocket module).  Go int64 values are modelled
as Int, timestamps as Nat, strings as String, channels and SQL tables as
lists.  Each definition names the source function it embeds.
-/

namespace TeamSync

/-- Embeds callSignalMessage (calls.go): a discriminated envelope whose
payload is opaque bytes (json.RawMessage), modelled as a String. -/
structure SignalMsg where
  msgType : String
  payload : String
deriving DecidableEq

/-- Embeds callConnection (calls.go).  connId models Go pointer identity of
the connection; send models the buffered channel contents (capacity 256);
sendClosed and sockClosed record close(conn.send) and conn.conn.Close(). -/
structure Conn where
  connId : Nat
  userID : Int
  send : List SignalMsg
  sendClosed : Bool
  sockClosed : Bool
deriving DecidableEq

/-- Capacity of the send channel: make(chan callSignalMessage, 256). -/
def sendCapacity : Nat := 256

/-- Embeds a non-blocking select send on conn.send: enqueue if the buffered
channel has room, otherwise drop the message (the default branch). -/
def trySend (c : Conn) (m : SignalMsg) : Conn :=
  if c.send.length < sendCapacity then { c with send := c.send ++ [m] } else c

/-- The coordinator registry callConnections: map callId -> connections,
modelled as an association list with at most one entry per key. -/
abbrev Registry := List (Int × List Conn)

/-- Map lookup callConnections[callID]; a missing key yields the empty
list, exactly as a nil slice does in Go. -/
def regGet : Registry → Int → List Conn
  | [], _ => []
  | e :: rest, k => if e.1 == k then e.2 else regGet rest k

/-- Map assignment callConnections[callID] = v. -/
def regSet (reg : Registry) (k : Int) (v : List Conn) : Registry :=
  (k, v) :: reg.filter (fun e => e.1 != k)

/-- Map deletion delete(callConnections, callID). -/
def regDel (reg : Registry) (k : Int) : Registry :=
  reg.filter (fun e => e.1 != k)

/-- The peer-joined envelope sent when the second connection registers. -/
def peerJoinedMsg : SignalMsg := ⟨"peer-joined", ""⟩

/-- Embeds the registration section of handleCallSignaling (calls.go lines
258-273): append the new connection to the call entry unconditionally, and
when the entry now holds exactly two connections, try to send peer-joined
to both. -/
def registerConnection (reg : Registry) (callId : Int) (c : Conn) : Registry :=
  let conns := regGet reg callId ++ [c]
  let conns := if conns.length = 2 then conns.map (fun cn => trySend cn peerJoinedMsg) else conns
  regSet reg callId conns

/-- Embeds the forwarding body of readPump (calls.go lines 318-329): the
message read from sender c is relayed, unchanged, to every connection of
the same call whose userID differs from the sender user id. -/
def forward (reg : Registry) (callId : Int) (c : Conn) (msg : SignalMsg) : Registry :=
  reg.map (fun e =>
    if e.1 == callId then
      (e.1, e.2.map (fun cn => if cn.userID != c.userID then trySend cn msg else cn))
    else e)

/-- Embeds one row of the calls table (migration 000009 / queries). -/
structure CallRow where
  id : Int
  conversationId : Int
  messageId : Int
  createdAt : Nat
  endedAt : Option Nat
  deletedAt : Option Nat
deriving DecidableEq

/-- Embeds the EndCall query: UPDATE calls SET ended_at = CURRENT_TIMESTAMP,
deleted_at = CURRENT_TIMESTAMP WHERE id = ?.  The update is unconditional:
it matches on the id alone, with no guard on ended_at. -/
def EndCall (calls : List CallRow) (callId : Int) (now : Nat) : List CallRow :=
  calls.map (fun r =>
    if r.id == callId then { r with endedAt := some now, deletedAt := some now } else r)

/-- Marks a connection as force-closed: close(conn.send); conn.conn.Close(). -/
def closeConn (c : Conn) : Conn := { c with sendClosed := true, sockClosed := true }

/-- Coordinator-side state touched by teardown: the in-memory registry and
the calls table. -/
structure CoordState where
  registry : Registry
  calls : List CallRow
deriving DecidableEq

/-- Embeds the deferred teardown of readPump (calls.go lines 280-307): the
closing connection is removed, the whole registry entry for the call id is
deleted, every other connection of the entry is force-closed, and EndCall
is invoked on the call row.  Returns the new state together with the list
of force-closed sibling connections. -/
def teardown (st : CoordState) (callId : Int) (c : Conn) (now : Nat) :
    CoordState × List Conn :=
  let conns := regGet st.registry callId
  let others := conns.filter (fun cn => cn.connId != c.connId)
  let reg := regDel st.registry callId
  let othersClosed := others.map closeConn
  ({ registry := reg, calls := EndCall st.calls callId now }, othersClosed)

/-! Basic registry lemmas. -/

theorem regGet_filter_ne (reg : Registry) (k k2 : Int) (h : k2 ≠ k) :
    regGet (reg.filter (fun e => e.1 != k)) k2 = regGet reg k2 := by
  induction reg with
  | nil => rfl
  | cons e rest ih =>
    by_cases h1 : e.1 = k
    · have h1b : (e.1 != k) = false := by simp [h1]
      have h2 : (e.1 == k2) = false := by
        simp only [h1, beq_eq_false_iff_ne, ne_eq]
        exact fun he => h he.symm
      simp [List.filter_cons, regGet, h1b, h2, ih]
    · have h1b : (e.1 != k) = true := by simp [h1]
      by_cases h2 : e.1 = k2
      · simp [List.filter_cons, regGet, h1b, h2, h]
      · simp [List.filter_cons, regGet, h1b, h2, ih]

theorem regGet_regSet (reg : Registry) (k : Int) (v : List Conn) :
    regGet (regSet reg k v) k = v := by
  simp [regGet, regSet]

theorem regGet_regSet_ne (reg : Registry) (k k2 : Int) (v : List Conn) (h : k2 ≠ k) :
    regGet (regSet reg k v) k2 = regGet reg k2 := by
  have hk : (k == k2) = false := by
    simp only [beq_eq_false_iff_ne, ne_eq]
    exact fun he => h he.symm
  simp only [regSet, regGet, hk]
  exact regGet_filter_ne reg k k2 h

theorem regGet_regDel (reg : Registry) (k : Int) :
    regGet (regDel reg k) k = [] := by
  unfold regDel
  induction reg with
  | nil => rfl
  | cons e rest ih =>
    by_cases h1 : e.1 = k
    · have h1b : (e.1 != k) = false := by simp [h1]
      simp [List.filter_cons, h1b, ih]
    · have h1b : (e.1 != k) = true := by simp [h1]
      have h2 : (e.1 == k) = false := by simp [h1]
      simp [List.filter_cons, regGet, h1b, h2, ih]

/-- The conn ids of a registry entry after registration: the old entry
followed by the new connection.  The peer-joined broadcast of the two-way
case only changes queues, never membership. -/
theorem registerConnection_connIds (reg : Registry) (callId : Int) (c : Conn) :
    (regGet (registerConnection reg callId c) callId).map Conn.connId
      = (regGet reg callId).map Conn.connId ++ [c.connId] := by
  unfold registerConnection
  rw [regGet_regSet]
  have hcomp : Conn.connId ∘ (fun cn => trySend cn peerJoinedMsg) = Conn.connId := by
    funext cn
    by_cases hl : cn.send.length < sendCapacity <;> simp [trySend, hl]
  by_cases h : (regGet reg callId ++ [c]).length = 2
  · rw [if_pos h, List.map_map, hcomp, List.map_append]
    rfl
  · rw [if_neg h, List.map_append]
    rfl

/-! Concrete connections used by the counterexamples: connA and connB belong
to the two distinct participants (user ids 10 and 20); connC is a second
connection opened by user 10 for the same call. -/

def connA : Conn := ⟨1, 10, [], false, false⟩

def connB : Conn := ⟨2, 20, [], false, false⟩

def connC : Conn := ⟨3, 10, [], false, false⟩

/-- Registry after three successive connection registrations for call id 1,
as performed by three handleCallSignaling requests that all pass the
participant check. -/
def reg3 : Registry :=
  registerConnection (registerConnection (registerConnection [] 1 connA) 1 connB) 1 connC

/-- C1 counterexample: after a third connection attempt for call id 1, the
registry entry holds three connections — the third attempt was appended,
not rejected, refuting the claim that at most two connections are ever
registered under one call id. -/
theorem c1_third_connection_added_counterexample :
    (regGet reg3 1).map Conn.connId = [1, 2, 3] ∧ (regGet reg3 1).length = 3 := by
  decide

/-- C1 (amended): handleCallSignaling never rejects a connection attempt
based on the registry: every registration appends the new connection to the
call entry, so the entry length always grows by one — in particular a third
connection attempt is added to the registry; reaching two connections only
gates the peer-joined broadcast. -/
theorem c1_registration_never_rejects (reg : Registry) (callId : Int) (c : Conn) :
    (regGet (registerConnection reg callId c) callId).map Conn.connId
      = (regGet reg callId).map Conn.connId ++ [c.connId] ∧
    (regGet (registerConnection reg callId c) callId).length
      = (regGet reg callId).length + 1 := by
  refine ⟨registerConnection_connIds reg callId c, ?_⟩
  have h := congrArg List.length (registerConnection_connIds reg callId c)
  simpa using h

/-! C2: teardown. -/

/-- The call row created by a successful start-call for conversation 42,
anchored to message 101, before anyone ends it. -/
def callRow1 : CallRow := ⟨1, 42, 101, 0, none, none⟩

/-- Registry after both participants connected to call 1 (the pairing
broadcast enqueued peer-joined on both connections). -/
def regAB : Registry := registerConnection (registerConnection [] 1 connA) 1 connB

/-- State with both participants connected to call 1. -/
def stAB : CoordState := ⟨regAB, [callRow1]⟩

/-- State after the first teardown (user 10's read pump exits at time 5). -/
def stAfterFirst : CoordState := (teardown stAB 1 connA 5).1

/-- State after the second teardown (user 20's read pump exits at time 7,
triggered by the force-close of the first teardown). -/
def stAfterSecond : CoordState := (teardown stAfterFirst 1 connB 7).1

/-- C2 counterexample: the first teardown sets the ended timestamp to 5, but
the second teardown of the same call writes the ended timestamp again,
overwriting it with 7 — EndCall has no guard on ended_at, refuting the
claim that the ended timestamp is set exactly once. -/
theorem c2_second_teardown_writes_again_counterexample :
    stAfterFirst.calls.map CallRow.endedAt = [some 5] ∧
    stAfterSecond.calls.map CallRow.endedAt = [some 7] := by
  decide

/-- C2 (amended): on either side's close, teardown clears the registry entry
for the call id (which removes the closing connection), force-closes every
sibling connection that was registered, and runs EndCall, which writes the
ended (and logical-delete) timestamp on every invocation — a second
teardown of the same call overwrites the ended timestamp rather than
leaving it untouched. -/
theorem c2_teardown_behavior (st : CoordState) (callId : Int) (c : Conn) (now : Nat) :
    regGet (teardown st callId c now).1.registry callId = [] ∧
    (teardown st callId c now).2
      = ((regGet st.registry callId).filter (fun cn => cn.connId != c.connId)).map closeConn ∧
    (∀ cn ∈ (teardown st callId c now).2, cn.sendClosed = true ∧ cn.sockClosed = true) ∧
    (∀ r ∈ st.calls, r.id = callId →
      { r with endedAt := some now, deletedAt := some now }
        ∈ (teardown st callId c now).1.calls) ∧
    (∀ r ∈ st.calls, r.id ≠ callId → r ∈ (teardown st callId c now).1.calls) := by
  refine ⟨regGet_regDel st.registry callId, rfl, ?_, ?_, ?_⟩
  · intro cn hcn
    simp only [teardown, List.mem_map] at hcn
    obtain ⟨cn0, _, heq⟩ := hcn
    rw [← heq]
    exact ⟨rfl, rfl⟩
  · intro r hr hid
    simp only [teardown, EndCall, List.mem_map]
    refine ⟨r, hr, ?_⟩
    have : (r.id == callId) = true := by simp [hid]
    rw [this]
    simp
  · intro r hr hid
    simp only [teardown, EndCall, List.mem_map]
    refine ⟨r, hr, ?_⟩
    have : (r.id == callId) = false := by simp [hid]
    rw [this]
    simp

/-- C2 witness: applying the teardown theorem at the two-party state. -/
theorem c2_teardown_behavior_witness :
    regGet (teardown stAB 1 connA 5).1.registry 1 = [] :=
  (c2_teardown_behavior stAB 1 connA 5).1

/-! C3: forwarding. -/

/-- A signal message carried verbatim by the coordinator. -/
def offerMsgX : SignalMsg := ⟨"offer", "sdp-bytes-1"⟩

/-- Registry holding two connections of the same user (user 10 opened the
signaling endpoint twice for call 1 — both requests pass validation and are
appended). -/
def regAC : Registry := registerConnection (registerConnection [] 1 connA) 1 connC

/-- C3 counterexample: connection 3 is another connection registered under
call id 1 (distinct from the sender, connection 1), yet forwarding a
message from connection 1 delivers it to no one, because the relay filters
by user id and both connections belong to user 10 — refuting the claim
that every message is forwarded to exactly the other registered
connection(s). -/
theorem c3_forward_skips_same_user_counterexample :
    (regGet regAC 1).map Conn.connId = [1, 3] ∧
    (regGet (forward regAC 1 connA offerMsgX) 1).map Conn.send
      = [[peerJoinedMsg], [peerJoinedMsg]] := by
  decide

/-- Entry-wise description of forward: the matching call entry is mapped,
other entries are untouched. -/
theorem regGet_forward (reg : Registry) (callId : Int) (c : Conn) (msg : SignalMsg) :
    regGet (forward reg callId c msg) callId
      = (regGet reg callId).map
          (fun cn => if cn.userID != c.userID then trySend cn msg else cn) := by
  induction reg with
  | nil => rfl
  | cons e rest ih =>
    by_cases h : e.1 = callId
    · have hb : (e.1 == callId) = true := by simp [h]
      simp [forward, regGet, hb]
    · have hb : (e.1 == callId) = false := by simp [h]
      simpa [forward, regGet, hb] using ih

/-- Forward leaves every other call id untouched. -/
theorem regGet_forward_ne (reg : Registry) (callId k : Int) (c : Conn) (msg : SignalMsg)
    (h : k ≠ callId) :
    regGet (forward reg callId c msg) k = regGet reg k := by
  induction reg with
  | nil => rfl
  | cons e rest ih =>
    by_cases he : e.1 = callId
    · have hb : (e.1 == callId) = true := by simp [he]
      have hk : (e.1 == k) = false := by
        simp only [he, beq_eq_false_iff_ne, ne_eq]
        exact fun hh => h hh.symm
      simpa [forward, regGet, hb, hk] using ih
    · have hb : (e.1 == callId) = false := by simp [he]
      by_cases hek : e.1 = k
      · simp [forward, regGet, hb, hek, h]
      · simpa [forward, regGet, hb, hek] using ih

/-- C3 (amended): for every received message, the coordinator relays the
message value verbatim (byte-identical envelope) to exactly those
connections of the same call whose user id differs from the sender's user
id; the sender's own connection — and any other connection owned by the
sender's user — never receives it, and other call entries are untouched. -/
theorem c3_forward_by_user (reg : Registry) (callId : Int) (c : Conn) (msg : SignalMsg) :
    regGet (forward reg callId c msg) callId
      = (regGet reg callId).map
          (fun cn => if cn.userID != c.userID then trySend cn msg else cn) ∧
    (∀ k, k ≠ callId → regGet (forward reg callId c msg) k = regGet reg k) ∧
    (∀ cn ∈ regGet reg callId, cn.userID = c.userID →
      cn ∈ regGet (forward reg callId c msg) callId) ∧
    (∀ cn ∈ regGet reg callId, cn.userID ≠ c.userID → cn.send.length < sendCapacity →
      { cn with send := cn.send ++ [msg] } ∈ regGet (forward reg callId c msg) callId) := by
  refine ⟨regGet_forward reg callId c msg, fun k hk => regGet_forward_ne reg callId k c msg hk,
    ?_, ?_⟩
  · intro cn hcn hu
    rw [regGet_forward]
    have hmem := List.mem_map_of_mem
      (fun cn => if cn.userID != c.userID then trySend cn msg else cn) hcn
    simpa [hu] using hmem
  · intro cn hcn hu hlen
    rw [regGet_forward]
    have hb : (cn.userID != c.userID) = true := by simp [hu]
    have hmem := List.mem_map_of_mem
      (fun cn => if cn.userID != c.userID then trySend cn msg else cn) hcn
    simpa [hb, trySend, hlen] using hmem

/-- C3 witness: forwarding between the two distinct participants delivers
the byte-identical message to the other side, appended after the earlier
peer-joined envelope. -/
theorem c3_forward_by_user_witness :
    (⟨2, 20, [peerJoinedMsg, offerMsgX], false, false⟩ : Conn)
      ∈ regGet (forward regAB 1 connA offerMsgX) 1 := by
  have h := (c3_forward_by_user regAB 1 connA offerMsgX).2.2.2
  have hmem : (⟨2, 20, [peerJoinedMsg], false, false⟩ : Conn) ∈ regGet regAB 1 := by decide
  have h2 := h ⟨2, 20, [peerJoinedMsg], false, false⟩ hmem (by decide) (by decide)
  simpa using h2

/-!
Client call-session state machine: shallow embedding of connectWebSocket
and its closures from the CallProvider module.  The async handlers are
modelled as an event-step function; the two awaits on ICE gathering
(waitForIceGatheringComplete) are made explicit through the
awaitingOfferSend / awaitingAnswerSend flags, so events arriving while a
handler is blocked are interleaved exactly as the event loop would.
-/

namespace Client

/-- RTCPeerConnection iceGatheringState values. -/
inductive GatherState
  | gnew
  | gathering
  | complete
deriving DecidableEq

/-- Abstract stand-in for the session description produced by
pc.createOffer; its content is opaque to the state machine. -/
def createdOfferSdp : String := "offer-sdp"

/-- Abstract stand-in for the session description produced by
pc.createAnswer. -/
def createdAnswerSdp : String := "answer-sdp"

def mkIceMsg (cand : String) : SignalMsg := ⟨"ice-candidate", cand⟩

def mkOfferMsg (sdp : String) : SignalMsg := ⟨"offer", sdp⟩

def mkAnswerMsg (sdp : String) : SignalMsg := ⟨"answer", sdp⟩

def mkRenegAnswerMsg (sdp : String) : SignalMsg := ⟨"renegotiate-answer", sdp⟩

/-- Per-connection closure state of connectWebSocket: the mutable state
record (hasPeerJoined, pendingLocalCandidates, pendingRemoteCandidates),
the peer connection's remote/local descriptions and gathering state, the
two await points, the messages sent on the socket (in order), and the
remote candidates applied via pc.addIceCandidate (in order). -/
structure ClientState where
  isInitiator : Bool
  hasPeerJoined : Bool
  pendingLocal : List String
  pendingRemote : List String
  remoteDesc : Option String
  localDesc : Option String
  gather : GatherState
  awaitingOfferSend : Bool
  awaitingAnswerSend : Bool
  sent : List SignalMsg
  appliedRemote : List String
deriving DecidableEq

/-- State right after connectWebSocket installs its handlers. -/
def initState (isInit : Bool) : ClientState :=
  ⟨isInit, false, [], [], none, none, GatherState.gnew, false, false, [], []⟩

/-- Embeds flushPendingLocalCandidates: a no-op unless hasPeerJoined is
set; otherwise sends every buffered candidate in order and empties the
buffer (the early return on an empty buffer has the same effect as
appending nothing). -/
def flushPendingLocalCandidates (s : ClientState) : ClientState :=
  if s.hasPeerJoined = false then s
  else { s with sent := s.sent ++ s.pendingLocal.map mkIceMsg, pendingLocal := [] }

/-- Embeds flushPendingRemoteCandidates: applies every buffered remote
candidate in order and empties the buffer. -/
def flushPendingRemoteCandidates (s : ClientState) : ClientState :=
  { s with appliedRemote := s.appliedRemote ++ s.pendingRemote, pendingRemote := [] }

/-- Tail of the initiator's peer-joined handler once gathering is
complete: ws.send of the offer, then hasPeerJoined = true and the local
candidate flush. -/
def sendOfferNow (s : ClientState) : ClientState :=
  flushPendingLocalCandidates
    { s with sent := s.sent ++ [mkOfferMsg (s.localDesc.getD "")],
             awaitingOfferSend := false, hasPeerJoined := true }

/-- Tail of the offer handler once gathering is complete: ws.send of the
answer, then the local candidate flush (hasPeerJoined is untouched). -/
def sendAnswerNow (s : ClientState) : ClientState :=
  flushPendingLocalCandidates
    { s with sent := s.sent ++ [mkAnswerMsg (s.localDesc.getD "")],
             awaitingAnswerSend := false }

/-- Events driving the session state machine: a locally gathered ICE
candidate (pc.onicecandidate), an ICE gathering state change, and the
ws.onmessage cases. -/
inductive ClientEvent
  | localCandidate (cand : String)
  | gatherChange (g : GatherState)
  | recvPeerJoined
  | recvOffer (sdp : String)
  | recvAnswer (sdp : String)
  | recvIceCandidate (cand : String)
  | recvRenegotiate (sdp : String)
  | recvRenegotiateAnswer (sdp : String)
deriving DecidableEq

/-- One event-loop step of the session state machine, faithful to the
handlers installed by connectWebSocket. -/
def step (s : ClientState) (e : ClientEvent) : ClientState :=
  match e with
  | ClientEvent.localCandidate cand =>
    if s.hasPeerJoined = false then { s with pendingLocal := s.pendingLocal ++ [cand] }
    else { s with sent := s.sent ++ [mkIceMsg cand] }
  | ClientEvent.gatherChange g =>
    let s1 := { s with gather := g }
    if g = GatherState.complete then
      if s1.awaitingOfferSend then sendOfferNow s1
      else if s1.awaitingAnswerSend then sendAnswerNow s1
      else s1
    else s1
  | ClientEvent.recvPeerJoined =>
    if s.isInitiator then
      let s1 := { s with localDesc := some createdOfferSdp }
      if s1.gather = GatherState.complete then sendOfferNow s1
      else { s1 with awaitingOfferSend := true }
    else
      flushPendingLocalCandidates { s with hasPeerJoined := true }
  | ClientEvent.recvOffer sdp =>
    let s1 := flushPendingRemoteCandidates { s with remoteDesc := some sdp }
    let s2 := { s1 with localDesc := some createdAnswerSdp }
    if s2.gather = GatherState.complete then sendAnswerNow s2
    else { s2 with awaitingAnswerSend := true }
  | ClientEvent.recvAnswer sdp =>
    flushPendingLocalCandidates (flushPendingRemoteCandidates { s with remoteDesc := some sdp })
  | ClientEvent.recvIceCandidate cand =>
    if s.remoteDesc = none then { s with pendingRemote := s.pendingRemote ++ [cand] }
    else { s with appliedRemote := s.appliedRemote ++ [cand] }
  | ClientEvent.recvRenegotiate sdp =>
    { s with remoteDesc := some sdp, localDesc := some createdAnswerSdp,
             sent := s.sent ++ [mkRenegAnswerMsg createdAnswerSdp] }
  | ClientEvent.recvRenegotiateAnswer sdp =>
    { s with remoteDesc := some sdp }

/-- Running the machine over a list of events. -/
def run (s : ClientState) (es : List ClientEvent) : ClientState := es.foldl step s

/-- The messages a single step appends to the socket (proof companion of
step, branch by branch). -/
def emitted (s : ClientState) (e : ClientEvent) : List SignalMsg :=
  match e with
  | ClientEvent.localCandidate cand =>
    if s.hasPeerJoined = false then [] else [mkIceMsg cand]
  | ClientEvent.gatherChange g =>
    if g = GatherState.complete then
      if s.awaitingOfferSend then
        mkOfferMsg (s.localDesc.getD "") :: s.pendingLocal.map mkIceMsg
      else if s.awaitingAnswerSend then
        mkAnswerMsg (s.localDesc.getD "")
          :: (if s.hasPeerJoined = false then [] else s.pendingLocal.map mkIceMsg)
      else []
    else []
  | ClientEvent.recvPeerJoined =>
    if s.isInitiator then
      if s.gather = GatherState.complete then
        mkOfferMsg createdOfferSdp :: s.pendingLocal.map mkIceMsg
      else []
    else s.pendingLocal.map mkIceMsg
  | ClientEvent.recvOffer _ =>
    if s.gather = GatherState.complete then
      mkAnswerMsg createdAnswerSdp
        :: (if s.hasPeerJoined = false then [] else s.pendingLocal.map mkIceMsg)
    else []
  | ClientEvent.recvAnswer _ =>
    if s.hasPeerJoined = false then [] else s.pendingLocal.map mkIceMsg
  | ClientEvent.recvIceCandidate _ => []
  | ClientEvent.recvRenegotiate _ => [mkRenegAnswerMsg createdAnswerSdp]
  | ClientEvent.recvRenegotiateAnswer _ => []

/-- Every step appends exactly its emitted messages to the sent list. -/
theorem step_sent (s : ClientState) (e : ClientEvent) :
    (step s e).sent = s.sent ++ emitted s e := by
  cases e <;>
    simp only [step, emitted, sendOfferNow, sendAnswerNow,
      flushPendingLocalCandidates, flushPendingRemoteCandidates] <;>
    first
      | (split_ifs <;> simp_all)
      | simp_all

/-- Pairing is absorbing: once hasPeerJoined is set it stays set. -/
theorem hasPeerJoined_mono (s : ClientState) (e : ClientEvent)
    (h : s.hasPeerJoined = true) : (step s e).hasPeerJoined = true := by
  cases e <;>
    simp only [step, sendOfferNow, sendAnswerNow,
      flushPendingLocalCandidates, flushPendingRemoteCandidates] <;>
    first
      | (split_ifs <;> simp_all)
      | simp_all

/-- A step emits an offer-typed message only when its post-state has ICE
gathering complete (branch analysis of the handlers). -/
theorem emitted_offer_gather (s : ClientState) (e : ClientEvent) (m : SignalMsg)
    (hm : m ∈ emitted s e) (hoff : m.msgType = "offer") :
    (step s e).gather = GatherState.complete := by
  cases e <;>
    simp only [emitted, step, sendOfferNow, sendAnswerNow, flushPendingLocalCandidates,
      flushPendingRemoteCandidates] at hm ⊢ <;>
    first
      | (split_ifs at hm ⊢ <;>
          simp_all [mkIceMsg, mkOfferMsg, mkAnswerMsg, mkRenegAnswerMsg])
      | simp_all [mkIceMsg, mkOfferMsg, mkAnswerMsg, mkRenegAnswerMsg]
  all_goals
    obtain ⟨a, -, ha⟩ := hm
  all_goals
    rw [← ha] at hoff
  all_goals
    simp [mkIceMsg] at hoff

/-- While the post-state is still unpaired, a step never emits an
ice-candidate message. -/
theorem no_ice_while_unpaired (s : ClientState) (e : ClientEvent)
    (h : (step s e).hasPeerJoined = false) (m : SignalMsg) (hm : m ∈ emitted s e) :
    m.msgType ≠ "ice-candidate" := by
  cases e <;>
    simp only [emitted, step, sendOfferNow, sendAnswerNow, flushPendingLocalCandidates,
      flushPendingRemoteCandidates] at h hm ⊢ <;>
    first
      | (split_ifs at h hm ⊢ <;>
          simp_all [mkIceMsg, mkOfferMsg, mkAnswerMsg, mkRenegAnswerMsg])
      | simp_all [mkIceMsg, mkOfferMsg, mkAnswerMsg, mkRenegAnswerMsg]

/-- The step that flips hasPeerJoined empties the local candidate buffer
and sends its contents (in order) after a possible non-candidate message
(the offer). -/
theorem pairing_step_flush (s : ClientState) (e : ClientEvent)
    (h0 : s.hasPeerJoined = false) (h1 : (step s e).hasPeerJoined = true) :
    (step s e).pendingLocal = [] ∧
    ∃ pre, emitted s e = pre ++ s.pendingLocal.map mkIceMsg ∧
      ∀ m ∈ pre, m.msgType ≠ "ice-candidate" := by
  cases e with
  | localCandidate cand =>
    simp [step, h0] at h1
  | gatherChange g =>
    by_cases hg : g = GatherState.complete
    · by_cases ho : s.awaitingOfferSend
      · refine ⟨?_, [mkOfferMsg (s.localDesc.getD "")], ?_, ?_⟩
        · simp [step, emitted, hg, ho, sendOfferNow, flushPendingLocalCandidates]
        · simp [emitted, hg, ho]
        · intro m hm
          simp only [List.mem_singleton] at hm
          subst hm
          simp [mkOfferMsg]
      · by_cases ha : s.awaitingAnswerSend
        · simp [step, emitted, hg, ho, ha, sendAnswerNow, flushPendingLocalCandidates, h0] at h1
        · simp [step, hg, ho, ha, h0] at h1
    · simp [step, hg, h0] at h1
  | recvPeerJoined =>
    by_cases hi : s.isInitiator
    · by_cases hg : s.gather = GatherState.complete
      · refine ⟨?_, [mkOfferMsg createdOfferSdp], ?_, ?_⟩
        · simp [step, hi, hg, sendOfferNow, flushPendingLocalCandidates]
        · simp [emitted, hi, hg]
        · intro m hm
          simp only [List.mem_singleton] at hm
          subst hm
          simp [mkOfferMsg]
      · simp [step, hi, hg, h0] at h1
    · refine ⟨?_, [], ?_, ?_⟩
      · simp [step, hi, flushPendingLocalCandidates]
      · simp [emitted, hi]
      · intro m hm
        simp at hm
  | recvOffer sdp =>
    by_cases hg : s.gather = GatherState.complete
    · simp [step, emitted, hg, sendAnswerNow, flushPendingLocalCandidates,
        flushPendingRemoteCandidates, h0] at h1
    · simp [step, hg, flushPendingRemoteCandidates, h0] at h1
  | recvAnswer sdp =>
    simp [step, flushPendingLocalCandidates, flushPendingRemoteCandidates, h0] at h1
  | recvIceCandidate cand =>
    by_cases hr : s.remoteDesc = none <;> simp [step, hr, h0] at h1
  | recvRenegotiate sdp =>
    simp [step, h0] at h1
  | recvRenegotiateAnswer sdp =>
    simp [step, h0] at h1

/-- Over any run that is still unpaired, no ice-candidate message was ever
sent (generalized invariant for the C7 trace statement). -/
theorem run_no_ice_unpaired (es : List ClientEvent) (s0 : ClientState)
    (hinv : s0.hasPeerJoined = false → ∀ m ∈ s0.sent, m.msgType ≠ "ice-candidate")
    (hpost : (run s0 es).hasPeerJoined = false) :
    ∀ m ∈ (run s0 es).sent, m.msgType ≠ "ice-candidate" := by
  induction es generalizing s0 with
  | nil => exact hinv hpost
  | cons e rest ih =>
    refine ih (step s0 e) ?_ hpost
    intro hps m hm
    have h0 : s0.hasPeerJoined = false := by
      cases hh : s0.hasPeerJoined
      · rfl
      · exact absurd (hasPeerJoined_mono s0 e hh) (by simp [hps])
    rw [step_sent] at hm
    rcases List.mem_append.mp hm with hold | hnew
    · exact hinv h0 m hold
    · exact no_ice_while_unpaired s0 e hps m hnew

/-- C6: on the initiator side (and on every side), for every execution
step, an offer-typed message is appended to the signaling socket only at a
moment where local ICE gathering is in the complete state: the peer-joined
handler builds the offer, sets it as the local description, and either
sends at once because gathering is already complete or blocks until the
gathering-state change to complete, which is the only other point that
transmits the offer. -/
theorem c6_offer_only_after_gathering_complete (s : ClientState) (e : ClientEvent)
    (l : List SignalMsg) (hl : (step s e).sent = s.sent ++ l)
    (m : SignalMsg) (hm : m ∈ l) (hoff : m.msgType = "offer") :
    (step s e).gather = GatherState.complete := by
  have h := step_sent s e
  rw [hl] at h
  have hle : l = emitted s e := List.append_cancel_left h
  exact emitted_offer_gather s e m (hle ▸ hm) hoff

/-- Initiator state whose ICE gathering is already complete when the peer
joins. -/
def c6s : ClientState := { initState true with gather := GatherState.complete }

/-- C6 witness: the initiator receiving peer-joined with gathering already
complete transmits the offer at a gathering-complete moment. -/
theorem c6_offer_only_after_gathering_complete_witness :
    (step c6s ClientEvent.recvPeerJoined).gather = GatherState.complete :=
  c6_offer_only_after_gathering_complete c6s ClientEvent.recvPeerJoined
    [mkOfferMsg createdOfferSdp] (by decide) (mkOfferMsg createdOfferSdp)
    (by decide) (by decide)

/-- C7: locally discovered ICE candidates arriving before peer-joined are
appended to the pending buffer and nothing is sent; over any whole run
that never observed peer-joined, no ice-candidate message was ever
transmitted; and the step that observes peer-joined empties the buffer,
sending the buffered candidates in generation order (after the offer, when
this side is the initiator). -/
theorem c7_candidates_buffered_until_peer_joined (s : ClientState) (e : ClientEvent)
    (b : Bool) (es : List ClientEvent) :
    (s.hasPeerJoined = false → ∀ cand,
      step s (ClientEvent.localCandidate cand)
        = { s with pendingLocal := s.pendingLocal ++ [cand] }) ∧
    ((run (initState b) es).hasPeerJoined = false →
      ∀ m ∈ (run (initState b) es).sent, m.msgType ≠ "ice-candidate") ∧
    (s.hasPeerJoined = false → (step s e).hasPeerJoined = true →
      (step s e).pendingLocal = [] ∧
      ∃ pre, (step s e).sent = s.sent ++ pre ++ s.pendingLocal.map mkIceMsg ∧
        ∀ m ∈ pre, m.msgType ≠ "ice-candidate") := by
  refine ⟨?_, ?_, ?_⟩
  · intro h0 cand
    simp [step, h0]
  · intro hpost
    refine run_no_ice_unpaired es (initState b) ?_ hpost
    intro _ m hm
    simp [initState] at hm
  · intro h0 h1
    obtain ⟨hemp, pre, hpre, hclean⟩ := pairing_step_flush s e h0 h1
    refine ⟨hemp, pre, ?_, hclean⟩
    rw [step_sent, hpre, List.append_assoc]

/-- Non-initiator state with two candidates buffered before pairing. -/
def c7s : ClientState := { initState false with pendingLocal := ["cand-1", "cand-2"] }

/-- C7 witness: receiving peer-joined on the non-initiator side with two
buffered candidates empties the buffer. -/
theorem c7_candidates_buffered_until_peer_joined_witness :
    (step c7s ClientEvent.recvPeerJoined).pendingLocal = [] :=
  ((c7_candidates_buffered_until_peer_joined c7s ClientEvent.recvPeerJoined false []).2.2
    (by decide) (by decide)).1

/-!
Resource release on call end (endCall of CallProvider) for C9.
-/

/-- Resources held by a live call, as read from callStateRef.current: the
signaling socket, the tracks of localStream, localCameraStream and the
remote streams (by track id), and the peer connection. -/
structure Resources where
  wsOpen : Bool
  localTracks : List Nat
  cameraTracks : List Nat
  remoteTracks : List Nat
  pcOpen : Bool
deriving DecidableEq

/-- Observable release actions performed by endCall. -/
inductive ReleaseAct
  | closeWs
  | stopTrack (id : Nat)
  | closePc
deriving DecidableEq

/-- The release actions endCall performs on a live state: ws.close, stop
of every local / camera / remote track, pc.close. -/
def endCallActions (r : Resources) : List ReleaseAct :=
  (if r.wsOpen then [ReleaseAct.closeWs] else [])
    ++ (r.localTracks ++ r.cameraTracks ++ r.remoteTracks).map ReleaseAct.stopTrack
    ++ (if r.pcOpen then [ReleaseAct.closePc] else [])

/-- Embeds endCall from CallProvider: it reads callStateRef.current; when
the call state has already been cleared (the session is Ended) it returns
at once releasing nothing; otherwise it releases every resource inside
try-catch blocks (so no error escapes) and clears the state.  Late
ws.onclose events invoke this same function. -/
def endCall (st : Option Resources) : Option Resources × List ReleaseAct :=
  match st with
  | none => (none, [])
  | some r => (none, endCallActions r)

/-- C9: ending is idempotent — after endCall the state is cleared, and a
second endCall (or a late transport-close invoking it) performs no release
action and leaves the post-state identical to that of the single end. -/
theorem c9_endCall_idempotent (st : Option Resources) :
    (endCall st).1 = none ∧
    endCall (endCall st).1 = ((endCall st).1, []) ∧
    (endCall (endCall st).1).1 = (endCall st).1 := by
  cases st <;> exact ⟨rfl, rfl, rfl⟩

end Client

/-- Faithful executable embedding of strings.HasPrefix / String.startsWith:
a Boolean prefix test on the character lists. -/
def strHasPfx (p s : String) : Bool := p.toList.isPrefixOf s.toList

/-- Embeds strings.TrimPrefix: drops the prefix when present, otherwise
returns the string unchanged. -/
def trimPfx (s p : String) : String :=
  if strHasPfx p s then s.drop p.length else s

/-!
Relay server authentication (rtc package, NewServer's authHandler) for C4.
-/

namespace Rtc

/-- One row of the oauth token store as used by the auth handler. -/
structure TokenRow where
  userID : Int
  accessTokenExpiresAt : Nat
deriving DecidableEq

/-- Outcome of queries.GetTokenByAccessToken under the 2-second context:
the row, sql.ErrNoRows, a context deadline (the bounded timeout elapsed —
treated exactly like any other lookup error), or another error. -/
inductive LookupOutcome
  | found (t : TokenRow)
  | noRows
  | timedOut
  | otherError
deriving DecidableEq

/-- The bounded timeout on the token lookup (turnAuthTimeout = 2s). -/
def turnAuthTimeoutSeconds : Nat := 2

/-- The long-term credential key produced by turn.GenerateAuthKey, modelled
as the triple it is deterministically derived from. -/
structure AuthKey where
  username : String
  realm : String
  password : String
deriving DecidableEq

/-- Embeds turn.GenerateAuthKey(username, realm, password). -/
def generateAuthKey (username realm password : String) : AuthKey :=
  ⟨username, realm, password⟩

/-- Embeds the authHandler closure of rtc.NewServer: reject on realm
mismatch, missing username prefix, empty recovered token, failed or timed
out store lookup, or expired token; otherwise derive and return the shared
key.  The source address argument is only logged and does not influence
the result, so it is omitted. -/
def authHandler (realm usernamePfx : String) (store : String → LookupOutcome)
    (now : Nat) (username realmParam : String) : Option AuthKey :=
  if realmParam != realm then none
  else if strHasPfx usernamePfx username then
    let token := trimPfx username usernamePfx
    if token = "" then none
    else
      match store token with
      | LookupOutcome.found t =>
        if now > t.accessTokenExpiresAt then none
        else some (generateAuthKey username realm token)
      | LookupOutcome.noRows => none
      | LookupOutcome.timedOut => none
      | LookupOutcome.otherError => none
  else none

/-- C4: the auth handler returns a credential key if and only if the
presented realm matches, the username carries the configured prefix, the
recovered token is non-empty, the bounded-timeout store lookup finds the
token (a timeout or error rejects), and the token is unexpired; in the
accepting case the key is exactly the one derived from (username, realm,
token) by the shared derivation, and in every rejecting case no key is
returned. -/
theorem c4_authHandler_key_iff (realm usernamePfx : String)
    (store : String → LookupOutcome) (now : Nat) (username realmParam : String)
    (k : AuthKey) :
    authHandler realm usernamePfx store now username realmParam = some k ↔
      (realmParam = realm ∧ strHasPfx usernamePfx username = true ∧
       trimPfx username usernamePfx ≠ "" ∧
       (∃ t, store (trimPfx username usernamePfx) = LookupOutcome.found t ∧
         ¬ now > t.accessTokenExpiresAt) ∧
       k = generateAuthKey username realm (trimPfx username usernamePfx)) := by
  by_cases h1 : realmParam = realm
  · by_cases h2 : strHasPfx usernamePfx username = true
    · by_cases h3 : trimPfx username usernamePfx = ""
      · simp [authHandler, h1, h2, h3]
      · cases hst : store (trimPfx username usernamePfx) with
        | found t =>
          by_cases h4 : now > t.accessTokenExpiresAt
          · simp [authHandler, h1, h2, h3, hst, h4]
          · simp [authHandler, h1, h2, h3, hst, h4, eq_comm]
            exact fun _ => Nat.le_of_not_lt h4
        | noRows => simp [authHandler, h1, h2, h3, hst]
        | timedOut => simp [authHandler, h1, h2, h3, hst]
        | otherError => simp [authHandler, h1, h2, h3, hst]
    · simp [authHandler, h1, h2]
  · simp [authHandler, h1, fun hh : realmParam = realm => h1 hh]

/-- A concrete token store holding one unexpired token. -/
def c4store : String → LookupOutcome := fun tok =>
  if tok = "tok-1" then LookupOutcome.found ⟨10, 100⟩ else LookupOutcome.noRows

/-- C4 witness: the handler accepts the well-formed credential and returns
the shared derived key. -/
theorem c4_authHandler_key_iff_witness :
    authHandler "teamsync" "teamsync:" c4store 50 "teamsync:tok-1" "teamsync"
      = some (generateAuthKey "teamsync:tok-1" "teamsync" "tok-1") :=
  (c4_authHandler_key_iff "teamsync" "teamsync:" c4store 50 "teamsync:tok-1" "teamsync"
    (generateAuthKey "teamsync:tok-1" "teamsync" "tok-1")).mpr
    ⟨rfl, by decide, by decide, ⟨⟨10, 100⟩, by decide, by decide⟩, by decide⟩

end Rtc

/-!
Relay configuration query (backend handleCallConfig of call_config.go plus
the client-side loadIceServers of the CallProvider module) for C5.
-/

namespace Api

/-- Effective TURN configuration (the rtc Config after NewServer applied
its defaults; in particular the username prefix is never empty there). -/
structure TurnCfg where
  listenAddress : String
  realm : String
  usernamePfx : String
  relayAddress : Option String
deriving DecidableEq

/-- Embeds callConfigResponse; iceServers lists the url groups of the
callICEConfig entries. -/
structure CallConfigResponse where
  iceServers : List (List String)
  usernamePfx : String
  realm : String
  relayAddress : String
  port : String
deriving DecidableEq

/-- Model of net.SplitHostPort for the shapes used here: split at the last
colon; a bracketed host loses its brackets; a missing colon or an
unbracketed host containing a colon is an error. -/
def splitHostPort (s : String) : Option (String × String) :=
  let cs := s.toList
  let revPort := cs.reverse.takeWhile (fun c => c ≠ ':')
  if revPort.length = cs.length then none
  else
    let port := String.mk revPort.reverse
    let hostPart := String.mk (cs.take (cs.length - (revPort.length + 1)))
    if strHasPfx "[" hostPart then
      if hostPart.endsWith "]" then some ((hostPart.drop 1).dropRight 1, port) else none
    else if hostPart.toList.contains ':' then none
    else some (hostPart, port)

/-- Embeds strings.Trim(s, brackets): strips leading and trailing bracket
characters. -/
def trimBracketChars (s : String) : String :=
  String.mk
    (((s.toList.dropWhile (fun c => c = '[' ∨ c = ']')).reverse.dropWhile
        (fun c => c = '[' ∨ c = ']')).reverse)

/-- Embeds hostFromRequest (call_config.go): r.Host, falling back to
r.URL.Host, falling back to localhost; bracketed hosts are unbracketed;
otherwise the host part of host:port, or the raw value. -/
def hostFromRequest (reqHost urlHost : String) : String :=
  let hostPort := if reqHost != "" then reqHost else urlHost
  if hostPort = "" then "localhost"
  else if strHasPfx "[" hostPort then trimBracketChars hostPort
  else
    match splitHostPort hostPort with
    | some (h, _) => if h != "" then h else hostPort
    | none => hostPort

/-- Embeds portFromListenAddress (call_config.go): the port of the TURN
listen address, defaulting to 3478. -/
def portFromListenAddress (listenAddress : String) : String :=
  if listenAddress = "" then "3478"
  else if strHasPfx ":" listenAddress then
    let port := trimPfx listenAddress ":"
    if port != "" then port else "3478"
  else
    match splitHostPort listenAddress with
    | some (_, p) => if p != "" then p else "3478"
    | none => "3478"

/-- Embeds handleCallConfig (call_config.go): derives the effective host
(configured relay address, else the request host), the port, the
bracket-formatted host, and answers the STUN and TURN urls together with
the username prefix, realm, relay address and port. -/
def handleCallConfig (cfg : TurnCfg) (reqHost urlHost : String) : CallConfigResponse :=
  let host0 := hostFromRequest reqHost urlHost
  let host := match cfg.relayAddress with
    | some ip => ip
    | none => host0
  let port := portFromListenAddress cfg.listenAddress
  let formattedHost :=
    if host.toList.contains ':' && !(strHasPfx "[" host) then "[" ++ host ++ "]" else host
  let stunURL := "stun:" ++ formattedHost ++ ":" ++ port
  let turnUDPURL := "turn:" ++ formattedHost ++ ":" ++ port ++ "?transport=udp"
  let turnTCPURL := "turn:" ++ formattedHost ++ ":" ++ port ++ "?transport=tcp"
  { iceServers := [[stunURL], [turnUDPURL, turnTCPURL]],
    usernamePfx := cfg.usernamePfx, realm := cfg.realm,
    relayAddress := host, port := port }

/-- Embeds the RTCIceServer entries the client builds. -/
structure RTCIceServer where
  urls : List String
  username : Option String
  credential : Option String
deriving DecidableEq

/-- DEFAULT_TURN_USERNAME_PREFIX of the client. -/
def defaultTurnUsernamePfx : String := "teamsync:"

/-- Embeds buildFallbackIceServers (client): local TURN configuration used
when the config fetch fails. -/
def buildFallbackIceServers (token : Option String) (pfx : String) (hostname0 : String) :
    List RTCIceServer :=
  let hostname := if hostname0 = "" then "localhost" else hostname0
  let formattedHost :=
    if hostname.toList.contains ':' && !(strHasPfx "[" hostname) then
      "[" ++ hostname ++ "]"
    else hostname
  let stunUrl := "stun:" ++ formattedHost ++ ":3478"
  let turnUrls := ["turn:" ++ formattedHost ++ ":3478?transport=udp",
                   "turn:" ++ formattedHost ++ ":3478?transport=tcp"]
  match token with
  | some t => [⟨[stunUrl], none, none⟩, ⟨turnUrls, some (pfx ++ t), some t⟩]
  | none => [⟨[stunUrl], none, none⟩, ⟨turnUrls, none, none⟩]

/-- The fetch-and-build body of loadIceServers: on a successful fetch,
each TURN url group gets the derived credential pair (username =
prefix ++ token, credential = token); on a failed fetch the fallback
configuration is built. -/
def loadIceServersCore (t : String) (fetchResult : Option CallConfigResponse)
    (hostname : String) : List RTCIceServer :=
  match fetchResult with
  | some cfg =>
    let pfx := if cfg.usernamePfx != "" then cfg.usernamePfx else defaultTurnUsernamePfx
    cfg.iceServers.map (fun urls =>
      if urls.any (fun u => strHasPfx "turn:" u) then
        ⟨urls, some (pfx ++ t), some t⟩
      else ⟨urls, none, none⟩)
  | none => buildFallbackIceServers (some t) defaultTurnUsernamePfx hostname

/-- Embeds loadIceServers (client): fails when no access token is present,
answers the cached list when the cache matches the token, and otherwise
builds the list from the fetched configuration (or the fallback). -/
def loadIceServers (token : Option String) (cache : Option (String × List RTCIceServer))
    (fetchResult : Option CallConfigResponse) (hostname : String) :
    Except String (List RTCIceServer) :=
  match token with
  | none => Except.error "Access token not found"
  | some t =>
    match cache with
    | some (ct, servers) =>
      if ct = t then Except.ok servers
      else Except.ok (loadIceServersCore t fetchResult hostname)
    | none => Except.ok (loadIceServersCore t fetchResult hostname)

/-- A stun: url (as built by handleCallConfig) never starts with turn:. -/
theorem strHasPfx_turn_stun3 (x y z : String) :
    strHasPfx "turn:" ("stun:" ++ x ++ y ++ z) = false := by
  have hdata : ("stun:" ++ x ++ y ++ z).toList
      = 's' :: 't' :: 'u' :: 'n' :: ':' :: (x.data ++ (y.data ++ z.data)) := by
    show ("stun:" ++ x ++ y ++ z).data = _
    rw [String.data_append, String.data_append, String.data_append,
      List.append_assoc, List.append_assoc]
    rfl
  simp [strHasPfx, hdata, List.isPrefixOf]

/-- A turn: url (as built by handleCallConfig) starts with turn:. -/
theorem strHasPfx_turn_turn4 (x y z w : String) :
    strHasPfx "turn:" ("turn:" ++ x ++ y ++ z ++ w) = true := by
  have hdata : ("turn:" ++ x ++ y ++ z ++ w).toList
      = 't' :: 'u' :: 'r' :: 'n' :: ':' :: (x.data ++ (y.data ++ (z.data ++ w.data))) := by
    show ("turn:" ++ x ++ y ++ z ++ w).data = _
    rw [String.data_append, String.data_append, String.data_append, String.data_append,
      List.append_assoc, List.append_assoc, List.append_assoc]
    rfl
  simp [strHasPfx, hdata, List.isPrefixOf]

/-- C5: with no access token, the relay configuration query fails
(Unauthenticated: the client refuses to issue the request); with a token,
the response carries the effective realm, host and port, and the client
builds the ICE server list from it: the STUN group without credentials and
the TURN group with the derived pair username = prefix ++ token,
credential = token. -/
theorem c5_relay_config_query (cfg : TurnCfg) (reqHost urlHost t hostname : String)
    (cache : Option (String × List RTCIceServer)) (fetchResult : Option CallConfigResponse)
    (hpfx : cfg.usernamePfx ≠ "") :
    loadIceServers none cache fetchResult hostname
      = Except.error "Access token not found" ∧
    (handleCallConfig cfg reqHost urlHost).realm = cfg.realm ∧
    (handleCallConfig cfg reqHost urlHost).port = portFromListenAddress cfg.listenAddress ∧
    (cfg.relayAddress = none →
      (handleCallConfig cfg reqHost urlHost).relayAddress = hostFromRequest reqHost urlHost) ∧
    (∀ ip, cfg.relayAddress = some ip →
      (handleCallConfig cfg reqHost urlHost).relayAddress = ip) ∧
    (∃ stunUrls turnUrls,
      (handleCallConfig cfg reqHost urlHost).iceServers = [stunUrls, turnUrls] ∧
      loadIceServers (some t) none (some (handleCallConfig cfg reqHost urlHost)) hostname
        = Except.ok [⟨stunUrls, none, none⟩,
            ⟨turnUrls, some (cfg.usernamePfx ++ t), some t⟩]) := by
  refine ⟨rfl, rfl, rfl, ?_, ?_, ?_⟩
  · intro h
    simp [handleCallConfig, h]
  · intro ip h
    simp [handleCallConfig, h]
  · refine ⟨(handleCallConfig cfg reqHost urlHost).iceServers.head!,
      ((handleCallConfig cfg reqHost urlHost).iceServers.drop 1).head!, ?_, ?_⟩
    · rfl
    · have hb : ((handleCallConfig cfg reqHost urlHost).usernamePfx != "") = true := by
        simp [handleCallConfig, hpfx]
      simp only [loadIceServers, loadIceServersCore, hb, if_pos trivial]
      simp only [handleCallConfig, List.map_cons, List.map_nil, List.any_cons, List.any_nil,
        List.head!, List.drop]
      simp only [strHasPfx_turn_stun3, strHasPfx_turn_turn4]
      simp

/-- C5 witness: with no access token the query fails, applied at the
default TURN configuration. -/
theorem c5_relay_config_query_witness :
    loadIceServers none none none "localhost" = Except.error "Access token not found" :=
  (c5_relay_config_query ⟨":3478", "teamsync", "teamsync:", none⟩ "example.com:8080" ""
    "tok-1" "localhost" none none (by decide)).1

end Api

/-!
Relational state and the start-call / call-status endpoints (calls.go with
the sqlc queries) for C8 and C10.
-/

namespace Db

/-- One row of the conversations table (ctype embeds the column named
type, which is a Lean keyword). -/
structure Conversation where
  id : Int
  ctype : String
  lastMessageSeq : Int
deriving DecidableEq

/-- One row of the messages table (the fields the call endpoints touch). -/
structure MessageRow where
  id : Int
  conversationId : Int
  seq : Int
  senderId : Int
  contentType : String
  body : String
deriving DecidableEq

/-- The relational state read and written by the call endpoints;
participants lists (conversation id, user id) pairs; the next ids model
the autoincrement counters (starting at 1). -/
structure DB where
  conversations : List Conversation
  participants : List (Int × Int)
  messages : List MessageRow
  calls : List CallRow
  nextMessageId : Int
  nextCallId : Int
deriving DecidableEq

/-- Embeds GetConversationByID: SELECT * FROM conversations WHERE id = ?. -/
def GetConversationByID (db : DB) (cid : Int) : Option Conversation :=
  db.conversations.find? (fun cv => cv.id == cid)

/-- Embeds GetConversationParticipants: the user ids joined to the
conversation. -/
def GetConversationParticipants (db : DB) (cid : Int) : List Int :=
  (db.participants.filter (fun p => p.1 == cid)).map (fun p => p.2)

/-- The accumulator of ORDER BY created_at DESC LIMIT 1: keep the row with
the latest created timestamp. -/
def pickLatest (acc : Option CallRow) (c : CallRow) : Option CallRow :=
  match acc with
  | none => some c
  | some b => if b.createdAt ≤ c.createdAt then some c else some b

/-- Embeds GetActiveCallByConversation: SELECT * FROM calls WHERE
conversation_id = ? AND deleted_at IS NULL ORDER BY created_at DESC
LIMIT 1. -/
def GetActiveCallByConversation (db : DB) (cid : Int) : Option CallRow :=
  (db.calls.filter (fun c => c.conversationId == cid && c.deletedAt.isNone)).foldl
    pickLatest none

/-- Embeds GetCallByMessageID: SELECT * FROM calls WHERE message_id = ?
AND deleted_at IS NULL. -/
def GetCallByMessageID (db : DB) (mid : Int) : Option CallRow :=
  db.calls.find? (fun c => c.messageId == mid && c.deletedAt.isNone)

/-- Embeds GetMessageByID: SELECT * FROM messages WHERE id = ?. -/
def GetMessageByID (db : DB) (mid : Int) : Option MessageRow :=
  db.messages.find? (fun m => m.id == mid)

/-- HTTP outcome of handleStartCall. -/
inductive StartCallResult
  | unauthorized
  | badRequest
  | notFound
  | forbidden
  | conflict
  | ok (callId messageId : Int)
deriving DecidableEq

/-- The transaction body of handleStartCall: UpdateConversationSeq, the
re-read of the conversation, CreateMessage with content type
application/call, CreateCall; the commit cannot fail in the model. -/
def startCallTx (db : DB) (userId convId : Int) (conv : Conversation) (now : Nat) :
    DB × StartCallResult :=
  let newSeq := conv.lastMessageSeq + 1
  let conversations := db.conversations.map (fun cv =>
    if cv.id == convId then { cv with lastMessageSeq := cv.lastMessageSeq + 1 } else cv)
  let message : MessageRow := ⟨db.nextMessageId, convId, newSeq, userId, "application/call", ""⟩
  let call : CallRow := ⟨db.nextCallId, convId, message.id, now, none, none⟩
  ({ db with conversations := conversations,
             messages := db.messages ++ [message],
             calls := db.calls ++ [call],
             nextMessageId := db.nextMessageId + 1,
             nextCallId := db.nextCallId + 1 },
   StartCallResult.ok call.id message.id)

/-- Embeds handleStartCall (calls.go lines 52-174): auth, body decode,
conversation lookup, the dm-only check, the participant check, the
active-call check (err == nil and activeCall.ID != 0), then the
transaction. -/
def handleStartCall (db : DB) (auth : Option Int) (body : Option Int) (now : Nat) :
    DB × StartCallResult :=
  match auth with
  | none => (db, StartCallResult.unauthorized)
  | some userId =>
    match body with
    | none => (db, StartCallResult.badRequest)
    | some convId =>
      match GetConversationByID db convId with
      | none => (db, StartCallResult.notFound)
      | some conv =>
        if conv.ctype != "dm" then (db, StartCallResult.badRequest)
        else if !((GetConversationParticipants db convId).contains userId) then
          (db, StartCallResult.forbidden)
        else
          match GetActiveCallByConversation db convId with
          | some activeCall =>
            if activeCall.id != 0 then (db, StartCallResult.conflict)
            else startCallTx db userId convId conv now
          | none => startCallTx db userId convId conv now

/-- HTTP outcome of handleCallStatus. -/
inductive CallStatusResult
  | unauthorized
  | badRequest
  | notFound
  | forbidden
  | ok (active : Bool)
deriving DecidableEq

/-- Embeds handleCallStatus (calls.go lines 342-400): auth, the messageId
query parameter (outer none: parameter missing; inner none: ParseInt
failure), the call lookup — whose miss answers active:false with no
further checks — then the message lookup, the participant check, and the
active flag (call.DeletedAt == nil). -/
def handleCallStatus (db : DB) (auth : Option Int) (midParam : Option (Option Int)) :
    CallStatusResult :=
  match auth with
  | none => CallStatusResult.unauthorized
  | some userId =>
    match midParam with
    | none => CallStatusResult.badRequest
    | some none => CallStatusResult.badRequest
    | some (some mid) =>
      match GetCallByMessageID db mid with
      | none => CallStatusResult.ok false
      | some call =>
        match GetMessageByID db mid with
        | none => CallStatusResult.notFound
        | some msg =>
          if !((GetConversationParticipants db msg.conversationId).contains userId) then
            CallStatusResult.forbidden
          else CallStatusResult.ok call.deletedAt.isNone

/-! Invariant machinery for C8. -/

/-- Pairwise distinct conversation ids. -/
def pairwiseDistinctConv : List CallRow → Bool
  | [] => true
  | c :: rest =>
    rest.all (fun d => d.conversationId != c.conversationId) && pairwiseDistinctConv rest

/-- The non-deleted calls of the table. -/
def activeCalls (db : DB) : List CallRow :=
  db.calls.filter (fun c => c.deletedAt.isNone)

/-- The non-ended calls of one conversation (the claim counts these). -/
def nonEndedCalls (db : DB) (cid : Int) : List CallRow :=
  db.calls.filter (fun c => c.conversationId == cid && c.endedAt.isNone)

/-- Well-formedness of the relational state: call ids are non-zero
(autoincrement), a call is ended exactly when it is logically deleted
(CreateCall sets neither, EndCall sets both), the call id counter is
positive, and the non-deleted calls belong to pairwise distinct
conversations. -/
def dbWF (db : DB) : Bool :=
  db.calls.all (fun c => c.id != 0 && (c.endedAt.isNone == c.deletedAt.isNone)) &&
  decide (1 ≤ db.nextCallId) &&
  pairwiseDistinctConv (activeCalls db)

theorem foldl_pickLatest_isSome (l : List CallRow) (b : CallRow) :
    (l.foldl pickLatest (some b)).isSome = true := by
  induction l generalizing b with
  | nil => rfl
  | cons c rest ih =>
    show ((c :: rest).foldl pickLatest (some b)).isSome = true
    rw [List.foldl_cons]
    by_cases h : b.createdAt ≤ c.createdAt
    · simpa [pickLatest, h] using ih c
    · simpa [pickLatest, h] using ih b

/-- The active-call query answers none exactly when no non-deleted call
exists for the conversation. -/
theorem getActive_none_iff (db : DB) (cid : Int) :
    GetActiveCallByConversation db cid = none ↔
      db.calls.filter (fun c => c.conversationId == cid && c.deletedAt.isNone) = [] := by
  unfold GetActiveCallByConversation
  cases hf : db.calls.filter (fun c => c.conversationId == cid && c.deletedAt.isNone) with
  | nil => simp
  | cons c rest =>
    constructor
    · intro h
      rw [List.foldl_cons] at h
      have := foldl_pickLatest_isSome rest c
      rw [show pickLatest none c = some c from rfl] at h
      rw [h] at this
      cases this
    · intro h
      cases h

theorem foldl_pickLatest_mem (l : List CallRow) (acc : Option CallRow) (b : CallRow)
    (h : l.foldl pickLatest acc = some b) : acc = some b ∨ b ∈ l := by
  induction l generalizing acc with
  | nil => exact Or.inl h
  | cons c rest ih =>
    rw [List.foldl_cons] at h
    rcases ih (pickLatest acc c) h with hacc | hmem
    · cases acc with
      | none =>
        right
        have hcb : c = b := by simpa [pickLatest] using hacc
        rw [← hcb]
        exact List.mem_cons_self c rest
      | some b0 =>
        by_cases hle : b0.createdAt ≤ c.createdAt
        · right
          have hcb : c = b := by simpa [pickLatest, hle] using hacc
          rw [← hcb]
          exact List.mem_cons_self c rest
        · left
          simpa [pickLatest, hle] using hacc
    · exact Or.inr (List.mem_cons_of_mem c hmem)

/-- The active-call query only answers rows of the table that are
non-deleted and belong to the conversation. -/
theorem getActive_mem (db : DB) (cid : Int) (ac : CallRow)
    (h : GetActiveCallByConversation db cid = some ac) :
    ac ∈ db.calls ∧ ac.conversationId = cid ∧ ac.deletedAt = none := by
  unfold GetActiveCallByConversation at h
  rcases foldl_pickLatest_mem _ none ac h with hacc | hmem
  · cases hacc
  · have hm := List.mem_filter.mp hmem
    refine ⟨hm.1, ?_, ?_⟩
    · have := hm.2
      simp only [Bool.and_eq_true, beq_iff_eq] at this
      exact this.1
    · have := hm.2
      simp only [Bool.and_eq_true, Option.isNone_iff_eq_none] at this
      exact this.2

theorem pairwise_append_singleton (l : List CallRow) (c : CallRow)
    (h1 : pairwiseDistinctConv l = true)
    (h2 : ∀ d ∈ l, d.conversationId ≠ c.conversationId) :
    pairwiseDistinctConv (l ++ [c]) = true := by
  induction l with
  | nil => simp [pairwiseDistinctConv]
  | cons a rest ih =>
    simp only [pairwiseDistinctConv, Bool.and_eq_true, List.all_eq_true] at h1
    have hrest := ih h1.2 (fun d hd => h2 d (List.mem_cons_of_mem a hd))
    simp only [List.cons_append, pairwiseDistinctConv, Bool.and_eq_true, List.all_eq_true]
    refine ⟨?_, hrest⟩
    intro d hd
    rcases List.mem_append.mp hd with hd1 | hd1
    · exact h1.1 d hd1
    · have hdc : d = c := by simpa using hd1
      subst hdc
      have := h2 a (List.mem_cons_self a rest)
      simp only [bne_iff_ne, ne_eq]
      exact fun he => this he.symm

theorem pairwise_count (l : List CallRow) (hpd : pairwiseDistinctConv l = true) (cid : Int) :
    (l.filter (fun c => c.conversationId == cid)).length ≤ 1 := by
  induction l with
  | nil => simp
  | cons c rest ih =>
    simp only [pairwiseDistinctConv, Bool.and_eq_true, List.all_eq_true] at hpd
    by_cases hcid : c.conversationId = cid
    · have hnil : rest.filter (fun d => d.conversationId == cid) = [] := by
        apply List.filter_eq_nil_iff.mpr
        intro d hd
        have := hpd.1 d hd
        simp only [bne_iff_ne, ne_eq, hcid] at this
        simp [this]
      have hb : (c.conversationId == cid) = true := by simp [hcid]
      simp [List.filter_cons, hb, hnil]
    · have hb : (c.conversationId == cid) = false := by simp [hcid]
      simp only [List.filter_cons, hb, Bool.false_eq_true, if_false]
      exact ih hpd.2

/-- Under the ended-iff-deleted coupling, the non-ended calls of a
conversation are the active calls of that conversation. -/
theorem filter_nonEnded_eq (l : List CallRow) (cid : Int)
    (hc : ∀ c ∈ l, c.endedAt.isNone = c.deletedAt.isNone) :
    l.filter (fun c => c.conversationId == cid && c.endedAt.isNone)
      = (l.filter (fun c => c.deletedAt.isNone)).filter
          (fun c => c.conversationId == cid) := by
  induction l with
  | nil => rfl
  | cons c rest ih =>
    have hcc := hc c (List.mem_cons_self c rest)
    have ihr := ih (fun d hd => hc d (List.mem_cons_of_mem c hd))
    by_cases hdel : c.deletedAt.isNone = true
    · by_cases hcid : c.conversationId = cid
      · simp [List.filter_cons, hdel, hcid, hcc ▸ hdel, ihr]
      · have hb : (c.conversationId == cid) = false := by simp [hcid]
        simp [List.filter_cons, hdel, hb, ihr]
    · have hb : c.deletedAt.isNone = false := by
        cases hdv : c.deletedAt.isNone
        · rfl
        · exact absurd hdv hdel
      have he : c.endedAt.isNone = false := hcc.trans hb
      simp [List.filter_cons, hb, he, ihr]

/-- A well-formed table has at most one non-ended call per conversation. -/
theorem dbWF_at_most_one (db : DB) (hwf : dbWF db = true) (cid : Int) :
    (nonEndedCalls db cid).length ≤ 1 := by
  simp only [dbWF, Bool.and_eq_true, List.all_eq_true] at hwf
  have hc : ∀ c ∈ db.calls, c.endedAt.isNone = c.deletedAt.isNone := by
    intro c hcm
    have := hwf.1.1 c hcm
    simp only [Bool.and_eq_true, beq_iff_eq] at this
    exact this.2
  unfold nonEndedCalls
  rw [filter_nonEnded_eq db.calls cid hc]
  exact pairwise_count _ hwf.2 cid

/-- The transaction preserves well-formedness when the conversation has no
active call. -/
theorem startCallTx_wf (db : DB) (userId convId : Int) (conv : Conversation) (now : Nat)
    (hwf : dbWF db = true)
    (hnone : ∀ c ∈ db.calls, c.deletedAt.isNone = true → c.conversationId ≠ convId) :
    dbWF (startCallTx db userId convId conv now).1 = true := by
  simp only [dbWF, Bool.and_eq_true, List.all_eq_true] at hwf
  obtain ⟨⟨hall, hnext⟩, hpd⟩ := hwf
  have hnext1 : (1 : Int) ≤ db.nextCallId := of_decide_eq_true hnext
  simp only [dbWF, startCallTx, Bool.and_eq_true, List.all_eq_true]
  refine ⟨⟨?_, ?_⟩, ?_⟩
  · intro c hcm
    rcases List.mem_append.mp hcm with hcm | hcm
    · exact hall c hcm
    · have : c = ⟨db.nextCallId, convId, db.nextMessageId, now, none, none⟩ := by
        simpa using hcm
      subst this
      simp only [Bool.and_eq_true, bne_iff_ne, ne_eq]
      refine ⟨fun h0 => ?_, by simp⟩
      rw [h0] at hnext1
      omega
  · exact decide_eq_true (by omega)
  · have hactive : activeCalls { db with
        conversations := db.conversations.map (fun cv =>
          if cv.id == convId then { cv with lastMessageSeq := cv.lastMessageSeq + 1 } else cv),
        messages := db.messages
          ++ [⟨db.nextMessageId, convId, conv.lastMessageSeq + 1, userId, "application/call", ""⟩],
        calls := db.calls ++ [⟨db.nextCallId, convId, db.nextMessageId, now, none, none⟩],
        nextMessageId := db.nextMessageId + 1,
        nextCallId := db.nextCallId + 1 }
      = activeCalls db ++ [⟨db.nextCallId, convId, db.nextMessageId, now, none, none⟩] := by
      simp [activeCalls, List.filter_append]
    rw [hactive]
    apply pairwise_append_singleton _ _ hpd
    intro d hd
    have hm := List.mem_filter.mp hd
    exact hnone d hm.1 hm.2

/-- Every run of handleStartCall either rejects with the state untouched,
or passes all three guards and runs the transaction. -/
theorem handleStartCall_cases (db : DB) (userId convId : Int) (now : Nat) :
    (∃ r, handleStartCall db (some userId) (some convId) now = (db, r) ∧
      ∀ ci mi, r ≠ StartCallResult.ok ci mi) ∨
    (∃ conv, GetConversationByID db convId = some conv ∧ conv.ctype = "dm" ∧
      (GetConversationParticipants db convId).contains userId = true ∧
      (GetActiveCallByConversation db convId = none ∨
        ∃ ac, GetActiveCallByConversation db convId = some ac ∧ ac.id = 0) ∧
      handleStartCall db (some userId) (some convId) now
        = startCallTx db userId convId conv now) := by
  unfold handleStartCall
  dsimp only
  cases hconv : GetConversationByID db convId with
  | none => exact Or.inl ⟨StartCallResult.notFound, rfl, fun ci mi h => by cases h⟩
  | some conv =>
    dsimp only
    by_cases hdm : conv.ctype = "dm"
    · have hdmb : (conv.ctype != "dm") = false := by simp [hdm]
      rw [hdmb, if_neg (by simp)]
      by_cases hp : (GetConversationParticipants db convId).contains userId = true
      · rw [hp, show (!true) = false from rfl, if_neg (by simp)]
        cases hact : GetActiveCallByConversation db convId with
        | none => exact Or.inr ⟨conv, rfl, hdm, rfl, Or.inl rfl, rfl⟩
        | some ac =>
          dsimp only
          by_cases hid : ac.id = 0
          · have hidb : (ac.id != 0) = false := by simp [hid]
            rw [hidb, if_neg (by simp)]
            exact Or.inr ⟨conv, rfl, hdm, rfl, Or.inr ⟨ac, rfl, hid⟩, rfl⟩
          · have hidb : (ac.id != 0) = true := by simp [hid]
            rw [hidb, if_pos rfl]
            exact Or.inl ⟨StartCallResult.conflict, rfl, fun ci mi h => by cases h⟩
      · have hpb : (GetConversationParticipants db convId).contains userId = false := by
          cases hv : (GetConversationParticipants db convId).contains userId
          · rfl
          · exact absurd hv hp
        rw [hpb, show (!false) = true from rfl, if_pos rfl]
        exact Or.inl ⟨StartCallResult.forbidden, rfl, fun ci mi h => by cases h⟩
    · have hdmb : (conv.ctype != "dm") = true := by simp [hdm]
      rw [hdmb, if_pos rfl]
      exact Or.inl ⟨StartCallResult.badRequest, rfl, fun ci mi h => by cases h⟩

/-- Well-formedness is preserved by every start-call request. -/
theorem handleStartCall_wf (db : DB) (userId convId : Int) (now : Nat)
    (hwf : dbWF db = true) :
    dbWF (handleStartCall db (some userId) (some convId) now).1 = true := by
  rcases handleStartCall_cases db userId convId now with ⟨r, heq, -⟩
    | ⟨conv, hconv, hdm, hp, hact, heq⟩
  · rw [heq]
    exact hwf
  · rw [heq]
    apply startCallTx_wf db userId convId conv now hwf
    rcases hact with hact | ⟨ac, hact, hid⟩
    · have hnil := (getActive_none_iff db convId).mp hact
      intro c hcm hdel hcid
      have hcmem : c ∈ db.calls.filter
          (fun c => c.conversationId == convId && c.deletedAt.isNone) := by
        apply List.mem_filter.mpr
        exact ⟨hcm, by simp [hcid, hdel]⟩
      rw [hnil] at hcmem
      cases hcmem
    · exfalso
      have hmem := getActive_mem db convId ac hact
      simp only [dbWF, Bool.and_eq_true, List.all_eq_true] at hwf
      have := hwf.1.1 ac hmem.1
      simp only [Bool.and_eq_true, bne_iff_ne, ne_eq] at this
      exact this.1 hid

/-- C8: for every well-formed state, the start-call endpoint preserves the
at-most-one-non-ended-call-per-conversation invariant; a request for a
conversation that is not a dm, whose caller is not a participant, or that
already has an active call is rejected with the corresponding status and
leaves the state untouched — and on every non-ok outcome no call row,
message row or other state is created. -/
theorem c8_start_call_guards (db : DB) (userId convId : Int) (now : Nat)
    (hwf : dbWF db = true) :
    dbWF (handleStartCall db (some userId) (some convId) now).1 = true ∧
    (∀ cid,
      (nonEndedCalls (handleStartCall db (some userId) (some convId) now).1 cid).length ≤ 1) ∧
    (∀ conv, GetConversationByID db convId = some conv → conv.ctype ≠ "dm" →
      handleStartCall db (some userId) (some convId) now = (db, StartCallResult.badRequest)) ∧
    (∀ conv, GetConversationByID db convId = some conv → conv.ctype = "dm" →
      (GetConversationParticipants db convId).contains userId = false →
      handleStartCall db (some userId) (some convId) now = (db, StartCallResult.forbidden)) ∧
    (∀ conv ac, GetConversationByID db convId = some conv → conv.ctype = "dm" →
      (GetConversationParticipants db convId).contains userId = true →
      GetActiveCallByConversation db convId = some ac →
      handleStartCall db (some userId) (some convId) now = (db, StartCallResult.conflict)) ∧
    ((∀ ci mi, (handleStartCall db (some userId) (some convId) now).2
        ≠ StartCallResult.ok ci mi) →
      (handleStartCall db (some userId) (some convId) now).1 = db) := by
  have hwfpost := handleStartCall_wf db userId convId now hwf
  refine ⟨hwfpost, fun cid => dbWF_at_most_one _ hwfpost cid, ?_, ?_, ?_, ?_⟩
  · intro conv hconv hdm
    have hdmb : (conv.ctype != "dm") = true := by simp [hdm]
    unfold handleStartCall
    dsimp only
    rw [hconv]
    dsimp only
    rw [hdmb, if_pos rfl]
  · intro conv hconv hdm hp
    have hdmb : (conv.ctype != "dm") = false := by simp [hdm]
    unfold handleStartCall
    dsimp only
    rw [hconv]
    dsimp only
    rw [hdmb, if_neg (by simp), hp, show (!false) = true from rfl, if_pos rfl]
  · intro conv ac hconv hdm hp hact
    have hdmb : (conv.ctype != "dm") = false := by simp [hdm]
    have hmem := getActive_mem db convId ac hact
    have hid : ac.id ≠ 0 := by
      simp only [dbWF, Bool.and_eq_true, List.all_eq_true] at hwf
      have := hwf.1.1 ac hmem.1
      simp only [Bool.and_eq_true, bne_iff_ne, ne_eq] at this
      exact this.1
    have hidb : (ac.id != 0) = true := by simp [hid]
    unfold handleStartCall
    dsimp only
    rw [hconv]
    dsimp only
    rw [hdmb, if_neg (by simp), hp, show (!true) = false from rfl, if_neg (by simp), hact]
    dsimp only
    rw [hidb, if_pos rfl]
  · intro hrej
    rcases handleStartCall_cases db userId convId now with ⟨r, heq, -⟩
      | ⟨conv, -, -, -, -, heq⟩
    · rw [heq]
    · exfalso
      apply hrej db.nextCallId db.nextMessageId
      rw [heq]
      rfl

/-- A two-party dm conversation (id 42, users 1 and 2) with no calls. -/
def c8db : DB := ⟨[⟨42, "dm", 0⟩], [(42, 1), (42, 2)], [], [], 101, 7⟩

/-- C8 witness: starting a call on the fresh dm preserves the invariant. -/
theorem c8_start_call_guards_witness :
    dbWF (handleStartCall c8db (some 1) (some 42) 0).1 = true :=
  (c8_start_call_guards c8db 1 42 0 (by decide)).1

/-- C10 (implicit): for an authenticated caller and a message id with no
non-deleted call row, the status endpoint answers active:false (HTTP 200)
without consulting the participants relation at all — the same answer for
every caller and every participants table; the Forbidden branch is
reachable only when an active (non-deleted) call row exists for the
message id. -/
theorem c10_status_unknown_before_participant_check (db : DB) (userId mid : Int)
    (ps : List (Int × Int)) :
    (GetCallByMessageID db mid = none →
      handleCallStatus db (some userId) (some (some mid)) = CallStatusResult.ok false ∧
      handleCallStatus { db with participants := ps } (some userId) (some (some mid))
        = CallStatusResult.ok false) ∧
    (handleCallStatus db (some userId) (some (some mid)) = CallStatusResult.forbidden →
      ∃ c, GetCallByMessageID db mid = some c ∧ c.deletedAt = none) := by
  constructor
  · intro h
    have h2 : GetCallByMessageID { db with participants := ps } mid = none := h
    exact ⟨by simp [handleCallStatus, h], by simp [handleCallStatus, h2]⟩
  · intro h
    cases hcall : GetCallByMessageID db mid with
    | none => simp [handleCallStatus, hcall] at h
    | some c =>
      refine ⟨c, rfl, ?_⟩
      have hp := List.find?_some hcall
      simp only [Bool.and_eq_true, Option.isNone_iff_eq_none] at hp
      exact hp.2

/-- C10 witness: an unknown message id answers active:false for any caller
even with an empty participants table. -/
theorem c10_status_unknown_before_participant_check_witness :
    handleCallStatus c8db (some 1) (some (some 101)) = CallStatusResult.ok false :=
  ((c10_status_unknown_before_participant_check c8db 1 101 []).1 (by decide)).1

end Db

end TeamSync
